import Mathlib

/-!
Shallow embedding of the WASI test-fixture generator (`src/wasitests.rs`):
the directive parser `extract_args_from_source_file`, the assertion-file
serializer `WasiTest::into_wasi_wast`, the native-oracle compiler invocation
built in `generate_native_output`, and the output-name derivation in `compile`.
Strings are modelled by Lean `String` (a wrapper around `List Char`); the Rust
string primitives used by the source (`split`, `split_whitespace`, `lines`,
`starts_with`, `to_lowercase`, `Path::file_stem`, `Path::set_extension`,
Debug escaping) are given explicit executable models below.
-/

/-- Splits a character list at every character satisfying `p`, keeping empty
segments (so adjacent separators and boundary separators yield empty pieces),
mirroring Rust `str::split`. -/
def splitOnPred (p : Char → Bool) : List Char → List (List Char)
  | [] => [[]]
  | c :: cs =>
    if p c then [] :: splitOnPred p cs
    else
      match splitOnPred p cs with
      | [] => [[c]]
      | q :: qs => (c :: q) :: qs

/-- Model of Rust `str::split(sep)` for a single separator character. -/
def splitOnSep (sep : Char) (s : String) : List String :=
  (splitOnPred (fun c => c = sep) s.data).map (fun l => (⟨l⟩ : String))

/-- Model of Rust `str::split_whitespace`: split on whitespace runs and drop
empty tokens. -/
def splitWhitespaceStr (s : String) : List String :=
  ((splitOnPred (fun c => c.isWhitespace) s.data).filter (fun l => l ≠ [])).map
    (fun l => (⟨l⟩ : String))

/-- Model of Rust `str::starts_with` for a string pattern. -/
def startsWithStr (s pre : String) : Bool :=
  pre.data.isPrefixOf s.data

/-- Model of Rust `Vec::<String>::join(" ")`, as used on every section's
element list by the serializer. -/
def joinSpace : List String → String
  | [] => ""
  | [x] => x
  | x :: y :: xs => x ++ " " ++ joinSpace (y :: xs)

/-- Concatenation of a list of strings, used to state how the serialized
output decomposes into its optional sections. -/
def catList (l : List String) : String :=
  l.foldr (fun a b => a ++ b) ""

/-- Hexadecimal digit list (lowercase, as Rust hex formatting prints inside
an escape) of a natural number below 256. -/
def hexDigitsOf (n : Nat) : List Char :=
  if n < 16 then [Nat.digitChar n]
  else [Nat.digitChar (n / 16), Nat.digitChar (n % 16)]

/-- Escape of one character under Rust's Debug formatting of a
string: quote, backslash, newline, carriage return and tab become two-character
backslash escapes, other control characters (code points below 32, and 127)
become a bracketed lowercase-hex escape, and every other character is kept
verbatim. -/
def escapeDebugChar (c : Char) : List Char :=
  if c = '"' then ['\\', '"']
  else if c = '\\' then ['\\', '\\']
  else if c = '\n' then ['\\', 'n']
  else if c = '\r' then ['\\', 'r']
  else if c = '\t' then ['\\', 't']
  else if c.toNat < 32 ∨ c.toNat = 127 then
    '\\' :: 'u' :: Char.ofNat 123 :: (hexDigitsOf c.toNat ++ [Char.ofNat 125])
  else [c]

/-- Escaped body of a string under Rust Debug formatting. -/
def escapeBody : List Char → List Char
  | [] => []
  | c :: cs => escapeDebugChar c ++ escapeBody cs

/-- Model of Rust Debug formatting of a string `s`: the escaped body
surrounded by double quotes. -/
def escapeDebug (s : String) : String :=
  ⟨'"' :: (escapeBody s.data ++ ['"'])⟩

/-- Execution options extracted from a test source file's header comment,
mirroring `struct WasiOptions` of `wasitests.rs`. -/
structure WasiOptions where
  mapdir : List (String × String)
  env : List (String × String)
  args : List String
  dir : List String
  tempdir : List String
deriving DecidableEq

/-- Value produced by `WasiOptions::default()` (all five lists empty). -/
def WasiOptions.default : WasiOptions :=
  ⟨[], [], [], [], []⟩

/-- One generated test case, mirroring `struct WasiTest` of `wasitests.rs`. -/
structure WasiTest where
  wasm_prog_name : String
  stdout : String
  stderr : String
  result : Int
  options : WasiOptions
deriving DecidableEq

/-- Rendering of the `envs` section body, mirroring the quoted `name=value`
rendering of each pair, joined by single spaces. -/
def envsLine (env : List (String × String)) : String :=
  "\n  (envs " ++ joinSpace (env.map (fun p => "\"" ++ p.1 ++ "=" ++ p.2 ++ "\"")) ++ ")"

/-- Rendering of the `args` section. -/
def argsLine (args : List String) : String :=
  "\n  (args " ++ joinSpace (args.map (fun v => "\"" ++ v ++ "\"")) ++ ")"

/-- Rendering of the `preopens` section. -/
def preopensLine (dir : List String) : String :=
  "\n  (preopens " ++ joinSpace (dir.map (fun v => "\"" ++ v ++ "\"")) ++ ")"

/-- Rendering of the `map_dirs` section. -/
def mapDirsLine (mapdir : List (String × String)) : String :=
  "\n  (map_dirs " ++ joinSpace (mapdir.map (fun p => "\"" ++ p.1 ++ ":" ++ p.2 ++ "\"")) ++ ")"

/-- Rendering of the `temp_dirs` section. -/
def tempDirsLine (tempdir : List String) : String :=
  "\n  (temp_dirs " ++ joinSpace (tempdir.map (fun td => "\"" ++ td ++ "\"")) ++ ")"

/-- Rendering of the always-present `assert_return` section. -/
def assertReturnLine (result : Int) : String :=
  "\n  (assert_return (i64.const " ++ toString result ++ "))"

/-- Rendering of the `assert_stdout` section; the captured text goes through
Debug escaping. -/
def assertStdoutLine (stdout : String) : String :=
  "\n  (assert_stdout " ++ escapeDebug stdout ++ ")"

/-- Rendering of the `assert_stderr` section. -/
def assertStderrLine (stderr : String) : String :=
  "\n  (assert_stderr " ++ escapeDebug stderr ++ ")"

/-- Serializer `WasiTest::into_wasi_wast`, transliterated from the source: a
header, one optional section per non-empty option list (in source order), the
mandatory `assert_return` section, optional `assert_stdout` / `assert_stderr`
sections, and the closing parenthesis. -/
def WasiTest.into_wasi_wast (t : WasiTest) : String :=
  let out := "(wasi_test \"" ++ t.wasm_prog_name ++ "\""
  let out := if t.options.env ≠ [] then out ++ envsLine t.options.env else out
  let out := if t.options.args ≠ [] then out ++ argsLine t.options.args else out
  let out := if t.options.dir ≠ [] then out ++ preopensLine t.options.dir else out
  let out := if t.options.mapdir ≠ [] then out ++ mapDirsLine t.options.mapdir else out
  let out := if t.options.tempdir ≠ [] then out ++ tempDirsLine t.options.tempdir else out
  let out := out ++ assertReturnLine t.result
  let out := if t.stdout ≠ "" then out ++ assertStdoutLine t.stdout else out
  let out := if t.stderr ≠ "" then out ++ assertStderrLine t.stderr else out
  out ++ "\n)"

/-- Merging lemma for literal string concatenation in right-associated
position, used to normalize serialized outputs. -/
theorem strApp3 {a b c : String} (h : a ++ b = c) (s : String) :
    a ++ (b ++ s) = c ++ s := by
  rw [← String.append_assoc, h]

/-- C2: serializing a test case whose option lists are all empty and whose
captured stdout and stderr are both empty yields exactly the three-line text
with only the header and the `assert_return` section. -/
theorem c2_serialize_minimal (t : WasiTest)
    (he : t.options.env = []) (ha : t.options.args = [])
    (hd : t.options.dir = []) (hm : t.options.mapdir = [])
    (ht : t.options.tempdir = []) (hso : t.stdout = "") (hse : t.stderr = "") :
    t.into_wasi_wast =
      "(wasi_test \"" ++ t.wasm_prog_name ++ "\"\n  (assert_return (i64.const "
        ++ toString t.result ++ "))\n)" := by
  obtain ⟨nm, so, se, res, opts⟩ := t
  obtain ⟨om, oe, oa, od, ot⟩ := opts
  simp only at he ha hd hm ht hso hse
  subst he ha hd hm ht hso hse
  simp only [WasiTest.into_wasi_wast, assertReturnLine]
  norm_num
  simp only [String.append_assoc,
    strApp3 (show ("\"" : String) ++ "\n  (assert_return (i64.const " =
      "\"\n  (assert_return (i64.const " from rfl),
    (show ("))" : String) ++ "\n)" = "))\n)" from rfl)]

/-- Witness for C2 at a concrete test case. -/
theorem c2_serialize_minimal_witness :
    (WasiTest.mk ("hello.wasm") ("") ("") 0 WasiOptions.default).into_wasi_wast =
      "(wasi_test \"hello.wasm\"\n  (assert_return (i64.const 0))\n)" := by
  have h := c2_serialize_minimal
    (WasiTest.mk ("hello.wasm") ("") ("") 0 WasiOptions.default)
    rfl rfl rfl rfl rfl rfl rfl
  simpa using h

/-- Names of the sections that the serializer can emit, in the fixed order in
which the source appends them. -/
def allSectionNames : List String :=
  ["envs", "args", "preopens", "map_dirs", "temp_dirs",
   "assert_return", "assert_stdout", "assert_stderr"]

/-- Rendered text of the sections actually present in the serialized output of
a test case, in emission order. -/
def sectionLines (t : WasiTest) : List String :=
  (if t.options.env ≠ [] then [envsLine t.options.env] else [])
    ++ (if t.options.args ≠ [] then [argsLine t.options.args] else [])
    ++ (if t.options.dir ≠ [] then [preopensLine t.options.dir] else [])
    ++ (if t.options.mapdir ≠ [] then [mapDirsLine t.options.mapdir] else [])
    ++ (if t.options.tempdir ≠ [] then [tempDirsLine t.options.tempdir] else [])
    ++ [assertReturnLine t.result]
    ++ (if t.stdout ≠ "" then [assertStdoutLine t.stdout] else [])
    ++ (if t.stderr ≠ "" then [assertStderrLine t.stderr] else [])

/-- Names of the sections actually present in the serialized output of a test
case, parallel to `sectionLines`. -/
def sectionNames (t : WasiTest) : List String :=
  (if t.options.env ≠ [] then ["envs"] else [])
    ++ (if t.options.args ≠ [] then ["args"] else [])
    ++ (if t.options.dir ≠ [] then ["preopens"] else [])
    ++ (if t.options.mapdir ≠ [] then ["map_dirs"] else [])
    ++ (if t.options.tempdir ≠ [] then ["temp_dirs"] else [])
    ++ ["assert_return"]
    ++ (if t.stdout ≠ "" then ["assert_stdout"] else [])
    ++ (if t.stderr ≠ "" then ["assert_stderr"] else [])

theorem catList_nil : catList [] = "" := rfl

theorem catList_cons (x : String) (l : List String) :
    catList (x :: l) = x ++ catList l := rfl

theorem catList_append (l1 l2 : List String) :
    catList (l1 ++ l2) = catList l1 ++ catList l2 := by
  induction l1 with
  | nil => simp [catList_nil, String.empty_append]
  | cons x xs ih =>
      simp only [List.cons_append, catList_cons, ih, String.append_assoc]

theorem appIte (c : Prop) [Decidable c] (out x : String) :
    (if c then out ++ x else out) = out ++ (if c then x else "") := by
  split
  · rfl
  · exact (String.append_empty out).symm

theorem catList_iteSingleton (c : Prop) [Decidable c] (x : String) :
    catList (if c then [x] else []) = if c then x else "" := by
  split
  · exact String.append_empty x
  · rfl

theorem mem_iteSingleton {α : Type} (a b : α) (c : Prop) [Decidable c] :
    a ∈ (if c then [b] else ([] : List α)) ↔ c ∧ a = b := by
  split <;> simp_all

theorem iteSingleton_sublist {α : Type} (c : Prop) [Decidable c] (x : α) :
    List.Sublist (if c then [x] else []) [x] := by
  by_cases h : c
  · rw [if_pos h]
  · rw [if_neg h]
    exact List.nil_sublist _

/-- C3: the serialized output is exactly the header followed by the
concatenation of the present sections and the closing line; the present
section names form a subsequence of the fixed order, contain no duplicates
(hence each non-empty category contributes exactly one section),
always include `assert_return`, and a section is present exactly when its
option list (or captured stream) is non-empty. -/
theorem c3_sections (t : WasiTest) :
    t.into_wasi_wast =
        "(wasi_test \"" ++ t.wasm_prog_name ++ "\"" ++ catList (sectionLines t) ++ "\n)"
      ∧ List.Sublist (sectionNames t) allSectionNames
      ∧ (sectionNames t).Nodup
      ∧ "assert_return" ∈ sectionNames t
      ∧ (∀ nm : String, nm ∈ sectionNames t ↔
          ((t.options.env ≠ [] ∧ nm = "envs")
            ∨ (t.options.args ≠ [] ∧ nm = "args")
            ∨ (t.options.dir ≠ [] ∧ nm = "preopens")
            ∨ (t.options.mapdir ≠ [] ∧ nm = "map_dirs")
            ∨ (t.options.tempdir ≠ [] ∧ nm = "temp_dirs")
            ∨ nm = "assert_return"
            ∨ (t.stdout ≠ "" ∧ nm = "assert_stdout")
            ∨ (t.stderr ≠ "" ∧ nm = "assert_stderr"))) := by
  have hsub : List.Sublist (sectionNames t) allSectionNames := by
    have h8 : allSectionNames =
        ["envs"] ++ ["args"] ++ ["preopens"] ++ ["map_dirs"] ++ ["temp_dirs"]
          ++ ["assert_return"] ++ ["assert_stdout"] ++ ["assert_stderr"] := rfl
    rw [sectionNames, h8]
    repeat' apply List.Sublist.append
    all_goals
      first
        | exact List.Sublist.refl _
        | exact iteSingleton_sublist _ _
  refine ⟨?_, hsub, hsub.nodup (by decide), ?_, ?_⟩
  · simp only [WasiTest.into_wasi_wast]
    simp only [appIte]
    simp only [sectionLines, catList_append, catList_iteSingleton,
      catList_cons, catList_nil, String.append_assoc, String.append_empty]
  · simp [sectionNames, List.mem_append]
  · intro nm
    simp only [sectionNames, List.mem_append, mem_iteSingleton,
      List.mem_singleton, or_assoc]

/-- Ways in which `extract_args_from_source_file` can panic: indexing
`tokenized[0]` or `tokenized[1]` out of bounds, or the `assert_eq!` demanding
a trailing colon on the directive name. -/
inductive PanicKind where
  | indexOutOfBounds
  | colonAssert
deriving DecidableEq

/-- Parser state: the options accumulated so far together with the warnings
printed so far (the source emits them with `eprintln!`). -/
abbrev ParseState := WasiOptions × List String

/-- Dispatch on the directive name, mirroring the `match command_name.as_ref()`
block of `extract_args_from_source_file`; each recognized arm reads
`tokenized[1]` (panicking when absent), the fallback arm only warns. -/
def dispatchCommand (st : ParseState) (command_name : String)
    (toks : List String) : Except PanicKind ParseState :=
  if command_name = "mapdir" then
    match toks with
    | [] => .error .indexOutOfBounds
    | payload :: _ =>
      match splitOnSep ':' payload with
      | [al, real_dir] =>
          .ok ({ st.1 with mapdir := st.1.mapdir ++ [(al, real_dir)] }, st.2)
      | _ =>
          .ok (st.1, st.2 ++ ["Parse error in mapdir " ++ payload ++ " not parsed correctly"])
  else if command_name = "env" then
    match toks with
    | [] => .error .indexOutOfBounds
    | payload :: _ =>
      match splitOnSep '=' payload with
      | [name, val] => .ok ({ st.1 with env := st.1.env ++ [(name, val)] }, st.2)
      | _ =>
          .ok (st.1, st.2 ++ ["Parse error in env " ++ payload ++ " not parsed correctly"])
  else if command_name = "dir" then
    match toks with
    | [] => .error .indexOutOfBounds
    | payload :: _ => .ok ({ st.1 with dir := st.1.dir ++ [payload] }, st.2)
  else if command_name = "arg" then
    match toks with
    | [] => .error .indexOutOfBounds
    | payload :: _ => .ok ({ st.1 with args := st.1.args ++ [payload] }, st.2)
  else if command_name = "tempdir" then
    match toks with
    | [] => .error .indexOutOfBounds
    | payload :: _ => .ok ({ st.1 with tempdir := st.1.tempdir ++ [payload] }, st.2)
  else
    .ok (st.1, st.2 ++ ["WARN: comment arg: `" ++ command_name ++ "` is not supported"])

/-- Processing of one directive line's token list (the whitespace tokens after
the leading comment token): `tokenized[0]` must exist (else index panic) and
must end in a colon (else the `assert_eq!` fails); the name with the colon
popped off is dispatched on. -/
def processTokens (st : ParseState) (tokenized : List String) :
    Except PanicKind ParseState :=
  match tokenized with
  | [] => .error .indexOutOfBounds
  | tok0 :: rest =>
    if tok0.data.getLast? = some ':' then
      dispatchCommand st (⟨tok0.data.dropLast⟩ : String) rest
    else .error .colonAssert

/-- Processing of one directive line: whitespace-tokenize, skip the first
token, then process. -/
def processLine (st : ParseState) (arg_line : String) :
    Except PanicKind ParseState :=
  processTokens st ((splitWhitespaceStr arg_line).drop 1)

/-- Left-to-right processing of the directive lines, mirroring the `for` loop. -/
def processLines : ParseState → List String → Except PanicKind ParseState
  | st, [] => .ok st
  | st, l :: ls =>
    match processLine st l with
    | .error e => .error e
    | .ok st' => processLines st' ls

/-- Model of Rust `str::lines`: split on newlines, drop a final empty segment
produced by a trailing newline, and strip one trailing carriage return per
line. -/
def rustLines (s : String) : List String :=
  let parts := (splitOnPred (fun c => c = '\n') s.data).map (fun l => (⟨l⟩ : String))
  let parts :=
    match parts.getLast? with
    | some last => if last = "" then parts.dropLast else parts
    | none => parts
  parts.map (fun l => if l.data.getLast? = some '\r' then (⟨l.data.dropLast⟩ : String) else l)

/-- Directive extractor `extract_args_from_source_file`, transliterated from
the source: activation requires the `// WASI:` marker prefix; the directive
block is the run of subsequent lines starting with the comment prefix; the
result also carries the warnings emitted. A `.error` value models a panic of
the Rust code. -/
def extract_args_from_source_file (source_code : String) :
    Except PanicKind (Option ParseState) :=
  if startsWithStr source_code ("// WASI:") then
    match processLines (WasiOptions.default, [])
        (((rustLines source_code).drop 1).takeWhile
          (fun line => startsWithStr line ("// "))) with
    | .error e => .error e
    | .ok st => .ok (some st)
  else .ok none

/-- Options as used by `compile`: `extract_args_from_source_file(&src_code)
.unwrap_or_default()`. -/
def parsedOptions (source_code : String) : Except PanicKind WasiOptions :=
  match extract_args_from_source_file source_code with
  | .error e => .error e
  | .ok none => .ok WasiOptions.default
  | .ok (some st) => .ok st.1

/-- Reduction of token processing when the first token ends in a colon: the
directive name is the token with the colon removed. -/
theorem processTokens_append_colon (st : ParseState) (name : String)
    (rest : List String) :
    processTokens st ((name ++ ":") :: rest) = dispatchCommand st name rest := by
  have hd : (name ++ (":" : String)).data = name.data ++ [':'] :=
    String.data_append name (":")
  have hlast : (name ++ (":" : String)).data.getLast? = some ':' := by
    rw [hd]
    exact List.getLast?_concat _
  have hdrop : ((⟨(name ++ (":" : String)).data.dropLast⟩ : String)) = name := by
    rw [hd, List.dropLast_concat]
  simp only [processTokens]
  rw [if_pos hlast, hdrop]

/-- Reduction of token processing for a `mapdir` directive token to the case
analysis on the colon-split payload. -/
theorem processTokens_mapdir (st : ParseState) (payload : String)
    (rest : List String) :
    processTokens st (("mapdir:") :: payload :: rest) =
      match splitOnSep ':' payload with
      | [al, real_dir] =>
          .ok ({ st.1 with mapdir := st.1.mapdir ++ [(al, real_dir)] }, st.2)
      | _ =>
          .ok (st.1, st.2 ++ ["Parse error in mapdir " ++ payload ++ " not parsed correctly"]) := by
  have h := processTokens_append_colon st ("mapdir") (payload :: rest)
  rw [show (("mapdir" : String) ++ ":") = ("mapdir:") from rfl] at h
  rw [h]
  rfl

/-- C4: a `mapdir` directive whose payload splits on a colon into exactly two
parts appends exactly that pair to the accumulated mapped directories (and no
warning); any other payload appends no pair, emits the parse warning, and
processing of the remaining directive lines continues. -/
theorem c4_mapdir_parse (opts : WasiOptions) (warns : List String)
    (payload : String) (rest : List String) :
    (∀ al real_dir : String, splitOnSep ':' payload = [al, real_dir] →
        processTokens (opts, warns) (("mapdir:") :: payload :: rest) =
          .ok ({ opts with mapdir := opts.mapdir ++ [(al, real_dir)] }, warns))
    ∧ ((splitOnSep ':' payload).length ≠ 2 →
        processTokens (opts, warns) (("mapdir:") :: payload :: rest) =
          .ok (opts, warns ++ ["Parse error in mapdir " ++ payload ++ " not parsed correctly"]))
    ∧ (∀ (st st' : ParseState) (line : String) (ls : List String),
        processLine st line = .ok st' →
        processLines st (line :: ls) = processLines st' ls) := by
  refine ⟨?_, ?_, ?_⟩
  · intro al real_dir hsp
    rw [processTokens_mapdir, hsp]
  · intro hlen
    rw [processTokens_mapdir]
    rcases hq : splitOnSep ':' payload with _ | ⟨a, _ | ⟨b, _ | ⟨c, tl⟩⟩⟩
    · rfl
    · rfl
    · rw [hq] at hlen
      simp at hlen
    · rfl
  · intro st st' line ls h
    simp only [processLines, h]

/-- Witness for C4: a well-formed payload `a:b` adds the pair, the colon-free
payload `ab` adds a warning instead, and processing continues past a warned
line. -/
theorem c4_mapdir_parse_witness :
    processTokens (WasiOptions.default, []) [("mapdir:"), ("a:b")] =
        .ok ({ WasiOptions.default with mapdir := [(("a" : String), ("b" : String))] }, [])
    ∧ processTokens (WasiOptions.default, []) [("mapdir:"), ("ab")] =
        .ok (WasiOptions.default, ["Parse error in mapdir ab not parsed correctly"])
    ∧ processLines (WasiOptions.default, []) [("// mapdir: ab"), ("// arg: x")] =
        processLines (WasiOptions.default, ["Parse error in mapdir ab not parsed correctly"])
          [("// arg: x")] := by
  refine ⟨?_, ?_, ?_⟩
  · exact (c4_mapdir_parse WasiOptions.default [] ("a:b") []).1 ("a") ("b") (by decide)
  · exact (c4_mapdir_parse WasiOptions.default [] ("ab") []).2.1 (by decide)
  · exact (c4_mapdir_parse WasiOptions.default [] ("ab") []).2.2
      (WasiOptions.default, []) (WasiOptions.default, ["Parse error in mapdir ab not parsed correctly"])
      ("// mapdir: ab") [("// arg: x")] rfl

/-- C5: when the source text does not begin with the `// WASI:` marker, the
extractor succeeds with no options record (no panic), and the options the
pipeline then uses are the default value, all five fields of which are empty. -/
theorem c5_no_marker_default (src : String)
    (h : startsWithStr src ("// WASI:") = false) :
    extract_args_from_source_file src = .ok none
    ∧ parsedOptions src = .ok WasiOptions.default
    ∧ WasiOptions.default.mapdir = [] ∧ WasiOptions.default.env = []
    ∧ WasiOptions.default.args = [] ∧ WasiOptions.default.dir = []
    ∧ WasiOptions.default.tempdir = [] := by
  have h1 : extract_args_from_source_file src = .ok none := by
    simp [extract_args_from_source_file, h]
  exact ⟨h1, by simp [parsedOptions, h1], rfl, rfl, rfl, rfl, rfl⟩

/-- Witness for C5 at a marker-free source text. -/
theorem c5_no_marker_default_witness :
    startsWithStr ("fn main()") ("// WASI:") = false
    ∧ extract_args_from_source_file ("fn main()") = .ok none
    ∧ parsedOptions ("fn main()") = .ok WasiOptions.default := by
  have h : startsWithStr ("fn main()") ("// WASI:") = false := by decide
  exact ⟨h, (c5_no_marker_default ("fn main()") h).1,
    (c5_no_marker_default ("fn main()") h).2.1⟩

/-- C6: a directive token that does not end in a colon makes processing abort
with the colon assertion failure (a panic, not a warning); a token of the form
`name:` dispatches on exactly `name` (the token with the trailing colon
removed). -/
theorem c6_colon_contract (st : ParseState) (tok : String)
    (rest : List String) :
    (tok.data.getLast? ≠ some ':' →
        processTokens st (tok :: rest) = .error PanicKind.colonAssert)
    ∧ (∀ name : String, tok = name ++ ":" →
        processTokens st (tok :: rest) = dispatchCommand st name rest) := by
  constructor
  · intro h
    simp only [processTokens]
    rw [if_neg h]
  · intro name hname
    rw [hname]
    exact processTokens_append_colon st name rest

/-- Witness for C6: `arg` (no colon) aborts, `arg:` dispatches on `arg`. -/
theorem c6_colon_contract_witness :
    processTokens (WasiOptions.default, []) [("arg"), ("x")] =
        .error PanicKind.colonAssert
    ∧ processTokens (WasiOptions.default, []) [("arg" ++ ":"), ("x")] =
        dispatchCommand (WasiOptions.default, []) ("arg") [("x")] := by
  exact ⟨(c6_colon_contract (WasiOptions.default, []) ("arg") [("x")]).1 (by decide),
    (c6_colon_contract (WasiOptions.default, []) (("arg" ++ ":")) [("x")]).2 ("arg") rfl⟩

/-- C8 counterexample: a directive line with only one token after the comment
prefix whose name is not a recognized directive does not panic: `// foo:`
produces a warning and a successful state, refuting the claim that every such
sub-two-token line panics via out-of-bounds indexing. -/
theorem c8_counterexample_unknown_no_payload :
    processLine (WasiOptions.default, []) ("// foo:") =
      .ok (WasiOptions.default, ["WARN: comment arg: `foo` is not supported"]) := by
  rfl

/-- C8 (amended): a directive line with no tokens after the comment prefix
panics via out-of-bounds indexing, as does one whose name is one of the five
recognized directives followed by no payload token; an unrecognized
colon-terminated name with no payload instead produces only a warning. -/
theorem c8_amended_index_panics (st : ParseState) (nm : String) :
    processTokens st [] = .error PanicKind.indexOutOfBounds
    ∧ (nm ∈ [("mapdir" : String), ("env"), ("dir"), ("arg"), ("tempdir")] →
        processTokens st [nm ++ ":"] = .error PanicKind.indexOutOfBounds)
    ∧ (nm ∉ [("mapdir" : String), ("env"), ("dir"), ("arg"), ("tempdir")] →
        processTokens st [nm ++ ":"] =
          .ok (st.1, st.2 ++ ["WARN: comment arg: `" ++ nm ++ "` is not supported"])) := by
  refine ⟨rfl, ?_, ?_⟩
  · intro h
    rw [processTokens_append_colon]
    simp only [List.mem_cons, List.mem_singleton, List.not_mem_nil, or_false] at h
    rcases h with h | h | h | h | h <;> subst h <;> rfl
  · intro h
    simp only [List.mem_cons, List.mem_singleton, List.not_mem_nil, or_false,
      not_or] at h
    obtain ⟨h1, h2, h3, h4, h5⟩ := h
    rw [processTokens_append_colon]
    simp only [dispatchCommand]
    rw [if_neg h1, if_neg h2, if_neg h3, if_neg h4, if_neg h5]

/-- Witness for the amended C8 at concrete inputs. -/
theorem c8_amended_index_panics_witness :
    processTokens (WasiOptions.default, []) [] = .error PanicKind.indexOutOfBounds
    ∧ processTokens (WasiOptions.default, []) [("arg" ++ ":")] =
        .error PanicKind.indexOutOfBounds
    ∧ processTokens (WasiOptions.default, []) [("xyz" ++ ":")] =
        .ok (WasiOptions.default, ["WARN: comment arg: `xyz` is not supported"]) := by
  refine ⟨(c8_amended_index_panics (WasiOptions.default, []) ("arg")).1, ?_, ?_⟩
  · exact (c8_amended_index_panics (WasiOptions.default, []) ("arg")).2.1 (by decide)
  · exact (c8_amended_index_panics (WasiOptions.default, []) ("xyz")).2.2 (by decide)

/-- Path of the native executable chosen by `generate_native_output`:
`temp_dir.join(normalized_name)`. -/
def executablePathOf (temp_dir normalized_name : String) : String :=
  temp_dir ++ "/" ++ normalized_name

/-- Argument list of the `rustc` invocation built by `generate_native_output`:
`.arg(file).arg("-o").args(args).arg(&executable_path)`, in that order. -/
def nativeCompileArgs (file : String) (args : List String)
    (executable : String) : List String :=
  [file, "-o"] ++ args ++ [executable]

/-- The operand that `rustc` binds to the `-o` flag: the argument immediately
following the first occurrence of `-o`. -/
def outputFlagOperand (argv : List String) : Option String :=
  match argv.dropWhile (fun a => a ≠ ("-o")) with
  | _ :: v :: _ => some v
  | _ => none

/-- C1 (failing behavior): with the non-empty parsed argument list
`["--flag"]`, the parsed argument does appear in the compiler invocation, but
it lands directly after `-o`, so the operand of the output flag is `--flag`
and not the deterministic base-name-derived path. -/
theorem c1_output_flag_misplaced :
    nativeCompileArgs ("hello.rs") [("--flag")]
        (executablePathOf ("/tmp") ("hello")) =
      [("hello.rs"), ("-o"), ("--flag"), ("/tmp/hello")]
    ∧ ("--flag" : String) ∈ nativeCompileArgs ("hello.rs") [("--flag")]
        (executablePathOf ("/tmp") ("hello"))
    ∧ outputFlagOperand (nativeCompileArgs ("hello.rs") [("--flag")]
        (executablePathOf ("/tmp") ("hello"))) = some ("--flag")
    ∧ outputFlagOperand (nativeCompileArgs ("hello.rs") [("--flag")]
        (executablePathOf ("/tmp") ("hello"))) ≠
          some (executablePathOf ("/tmp") ("hello")) := by
  exact ⟨rfl, by decide, rfl, by decide⟩

/-- Model of Rust `str::to_lowercase` (ASCII case mapping, character-wise). -/
def toLowercaseStr (s : String) : String :=
  ⟨s.data.map Char.toLower⟩

/-- Characters of the final path component, modelling `Path::file_name` for
the slash-separated paths handled by `compile`. -/
def fileNameChars (p : String) : List Char :=
  ((splitOnPred (fun c => c = '/') p.data).getLast?).getD []

/-- Characters strictly before the last dot of a file name. -/
def dropAfterLastDot (cs : List Char) : List Char :=
  ((cs.reverse.dropWhile (fun c => c ≠ '.')).drop 1).reverse

/-- Stem of a file name, modelling `Path::file_stem`: everything before the
last dot, except that a name whose only dot is the leading character is kept
whole. -/
def stemChars (name : List Char) : List Char :=
  if (name.drop 1).contains '.' then dropAfterLastDot name else name

/-- Model of `Path::file_stem` on a path string. -/
def fileStemStr (p : String) : String :=
  ⟨stemChars (fileNameChars p)⟩

/-- The `rs_mod_name` computed by `compile`: the file stem of the lowercased
source path. -/
def rs_mod_name (file : String) : String :=
  fileStemStr (toLowercaseStr file)

/-- The wasm module name recorded in the serialized test:
the base name with `.wasm` appended. -/
def wasm_prog_name_of (file : String) : String :=
  rs_mod_name file ++ ".wasm"

/-- Model of `Path::set_extension` with a non-empty extension on a file name:
the stem followed by a dot and the new extension (an existing extension is
replaced). -/
def setExtension (name ext : String) : String :=
  (⟨stemChars name.data⟩ : String) ++ "." ++ ext

/-- File name of the written assertion file:
`out_dir.join(rs_mod_name).set_extension("wast")`. -/
def wast_out_name (file : String) : String :=
  setExtension (rs_mod_name file) ("wast")

/-- File name of the compiled wasm binary:
`out_dir.join(rs_mod_name).set_extension("wasm")`. -/
def wasm_out_name (file : String) : String :=
  setExtension (rs_mod_name file) ("wasm")

/-- A string containing no uppercase ASCII letter. -/
def noUpperStr (s : String) : Prop :=
  ∀ c ∈ s.data, c.isUpper = false

theorem isUpper_eq_decide (c : Char) :
    c.isUpper = (decide (65 ≤ c.toNat) && decide (c.toNat ≤ 90)) := rfl

theorem toLower_not_upper (c : Char) : (Char.toLower c).isUpper = false := by
  by_cases h : 65 ≤ c.toNat ∧ c.toNat ≤ 90
  · simp only [Char.toLower, ge_iff_le, if_pos h]
    obtain ⟨h1, h2⟩ := h
    generalize hn : c.toNat = n at h1 h2
    interval_cases n <;> decide
  · simp only [Char.toLower, ge_iff_le, if_neg h]
    rw [isUpper_eq_decide, Bool.and_eq_false_iff]
    rcases Nat.lt_or_ge c.toNat 65 with hlt | hge
    · left
      simpa [decide_eq_false_iff_not] using Nat.not_le_of_lt hlt
    · right
      have : ¬ c.toNat ≤ 90 := fun hle => h ⟨hge, hle⟩
      simpa [decide_eq_false_iff_not] using this

theorem mem_splitOnPred {p : Char → Bool} :
    ∀ {cs l : List Char}, l ∈ splitOnPred p cs → ∀ {c : Char}, c ∈ l → c ∈ cs := by
  intro cs
  induction cs with
  | nil =>
      intro l hl c hc
      simp only [splitOnPred, List.mem_singleton] at hl
      subst hl
      simp at hc
  | cons a cs ih =>
      intro l hl c hc
      simp only [splitOnPred] at hl
      by_cases hp : p a
      · rw [if_pos hp] at hl
        rcases List.mem_cons.mp hl with h | h
        · subst h
          simp at hc
        · exact List.mem_cons_of_mem _ (ih h hc)
      · rw [if_neg hp] at hl
        rcases hrec : splitOnPred p cs with _ | ⟨q, qs⟩
        · rw [hrec] at hl
          simp only [List.mem_singleton] at hl
          subst hl
          rw [List.mem_singleton] at hc
          subst hc
          exact List.mem_cons_self _ _
        · rw [hrec] at hl
          rcases List.mem_cons.mp hl with h | h
          · subst h
            rcases List.mem_cons.mp hc with h2 | h2
            · subst h2
              exact List.mem_cons_self _ _
            · have hq : q ∈ splitOnPred p cs := by
                rw [hrec]
                exact List.mem_cons_self _ _
              exact List.mem_cons_of_mem _ (ih hq h2)
          · have hq : l ∈ splitOnPred p cs := by
              rw [hrec]
              exact List.mem_cons_of_mem _ h
            exact List.mem_cons_of_mem _ (ih hq hc)

theorem mem_dropAfterLastDot {cs : List Char} {c : Char}
    (h : c ∈ dropAfterLastDot cs) : c ∈ cs := by
  unfold dropAfterLastDot at h
  rw [List.mem_reverse] at h
  have h2 := (List.drop_sublist 1 _).subset h
  have h3 := (List.dropWhile_sublist _).subset h2
  rw [List.mem_reverse] at h3
  exact h3

theorem mem_stemChars {name : List Char} {c : Char}
    (h : c ∈ stemChars name) : c ∈ name := by
  unfold stemChars at h
  split at h
  · exact mem_dropAfterLastDot h
  · exact h

theorem mem_fileNameChars {p : String} {c : Char}
    (h : c ∈ fileNameChars p) : c ∈ p.data := by
  unfold fileNameChars at h
  rcases hG : (splitOnPred (fun c => c = '/') p.data).getLast? with _ | l
  · rw [hG] at h
    simp at h
  · rw [hG] at h
    simp only [Option.getD_some] at h
    exact mem_splitOnPred (List.mem_of_getLast?_eq_some hG) h

theorem noUpper_toLowercase (s : String) : noUpperStr (toLowercaseStr s) := by
  intro c hc
  simp only [toLowercaseStr] at hc
  rcases List.mem_map.mp hc with ⟨c0, _, rfl⟩
  exact toLower_not_upper c0

theorem noUpper_rs_mod_name (file : String) : noUpperStr (rs_mod_name file) := by
  intro c hc
  exact noUpper_toLowercase file c (mem_fileNameChars (mem_stemChars hc))

theorem noUpper_append {a b : String} (ha : noUpperStr a) (hb : noUpperStr b) :
    noUpperStr (a ++ b) := by
  intro c hc
  rw [String.data_append] at hc
  rcases List.mem_append.mp hc with h | h
  · exact ha c h
  · exact hb c h

theorem noUpper_stem (s : String) (h : noUpperStr s) :
    noUpperStr (⟨stemChars s.data⟩ : String) :=
  fun c hc => h c (mem_stemChars hc)

theorem noUpper_of_all (s : String)
    (h : s.data.all (fun c => !c.isUpper) = true) : noUpperStr s := by
  intro c hc
  have h2 := List.all_eq_true.mp h c hc
  simpa using h2

/-- C10 counterexample: for the source file `A.B.rs` the recorded module base
name is `a.b`, but the written output file is named `a.wast` (set_extension
replaces the apparent extension `b`), not `a.b.wast` as the claim's
`<base>.wast` formula states. -/
theorem c10_counterexample_dotted_stem :
    rs_mod_name ("A.B.rs") = ("a.b")
    ∧ wast_out_name ("A.B.rs") = ("a.wast")
    ∧ rs_mod_name ("A.B.rs") ++ ".wast" = ("a.b.wast")
    ∧ wast_out_name ("A.B.rs") ≠ rs_mod_name ("A.B.rs") ++ ".wast" := by
  exact ⟨rfl, rfl, rfl, by decide⟩

/-- C10 (amended): all three names are derived from the lowercased source
path's stem and contain no uppercase letter; the recorded wasm name is
`<base>.wasm` verbatim, while the two output file names re-apply the stem
computation (`set_extension`), which agrees with `<base>.wast` / `<base>.wasm`
exactly when the base name has no interior dot. -/
theorem c10_amended_lowercase_names (file : String) :
    noUpperStr (rs_mod_name file)
    ∧ wasm_prog_name_of file = rs_mod_name file ++ ".wasm"
    ∧ wast_out_name file = setExtension (rs_mod_name file) ("wast")
    ∧ wasm_out_name file = setExtension (rs_mod_name file) ("wasm")
    ∧ noUpperStr (wasm_prog_name_of file)
    ∧ noUpperStr (wast_out_name file)
    ∧ noUpperStr (wasm_out_name file)
    ∧ (((rs_mod_name file).data.drop 1).contains '.' = false →
        wast_out_name file = rs_mod_name file ++ ".wast"
        ∧ wasm_out_name file = rs_mod_name file ++ ".wasm") := by
  have hnu := noUpper_rs_mod_name file
  have hstem : noUpperStr ((⟨stemChars (rs_mod_name file).data⟩ : String)) :=
    noUpper_stem _ hnu
  refine ⟨hnu, rfl, rfl, rfl, ?_, ?_, ?_, ?_⟩
  · exact noUpper_append hnu (noUpper_of_all _ (by decide))
  · exact noUpper_append (noUpper_append hstem (noUpper_of_all _ (by decide)))
      (noUpper_of_all _ (by decide))
  · exact noUpper_append (noUpper_append hstem (noUpper_of_all _ (by decide)))
      (noUpper_of_all _ (by decide))
  · intro h
    have hs : stemChars (rs_mod_name file).data = (rs_mod_name file).data := by
      unfold stemChars
      rw [if_neg]
      simp only [h]
      exact Bool.false_ne_true
    have heta : ((⟨(rs_mod_name file).data⟩ : String)) = rs_mod_name file := rfl
    constructor
    · show setExtension (rs_mod_name file) ("wast") = _
      unfold setExtension
      rw [hs, heta, String.append_assoc]
      rfl
    · show setExtension (rs_mod_name file) ("wasm") = _
      unfold setExtension
      rw [hs, heta, String.append_assoc]
      rfl

/-- Witness for the amended C10 at a concrete upper-case source name. -/
theorem c10_amended_lowercase_names_witness :
    noUpperStr (rs_mod_name ("Hello_World.rs"))
    ∧ wast_out_name ("Hello_World.rs") = rs_mod_name ("Hello_World.rs") ++ ".wast"
    ∧ wasm_out_name ("Hello_World.rs") = rs_mod_name ("Hello_World.rs") ++ ".wasm" := by
  have h := (c10_amended_lowercase_names ("Hello_World.rs")).2.2.2.2.2.2.2 (by decide)
  exact ⟨(c10_amended_lowercase_names ("Hello_World.rs")).1, h.1, h.2⟩

/-- Value of a lowercase hexadecimal digit character. -/
def fromHexDigit (c : Char) : Option Nat :=
  if '0' ≤ c ∧ c ≤ '9' then some (c.toNat - 48)
  else if 'a' ≤ c ∧ c ≤ 'f' then some (c.toNat - 87)
  else none

/-- Inverse of the Debug escaping on the quoted body: interprets the
two-character backslash escapes and the bracketed hex escapes (of at most two
digits, which covers every escape the serializer emits) and keeps other
characters verbatim. -/
def unescapeChars : List Char → Option (List Char)
  | [] => some []
  | ['\\'] => none
  | '\\' :: '"' :: rest => (unescapeChars rest).map (List.cons '"')
  | '\\' :: '\\' :: rest => (unescapeChars rest).map (List.cons '\\')
  | '\\' :: 'n' :: rest => (unescapeChars rest).map (List.cons '\n')
  | '\\' :: 'r' :: rest => (unescapeChars rest).map (List.cons '\r')
  | '\\' :: 't' :: rest => (unescapeChars rest).map (List.cons '\t')
  | '\\' :: 'u' :: ob :: d1 :: c2 :: rest =>
      if ob = Char.ofNat 123 then
        match fromHexDigit d1 with
        | some h1 =>
          if c2 = Char.ofNat 125 then (unescapeChars rest).map (List.cons (Char.ofNat h1))
          else
            match fromHexDigit c2, rest with
            | some h2, c4 :: rest2 =>
              if c4 = Char.ofNat 125 then
                (unescapeChars rest2).map (List.cons (Char.ofNat (16 * h1 + h2)))
              else none
            | _, _ => none
        | none => none
      else none
  | '\\' :: _ :: _ => none
  | c :: cs => (unescapeChars cs).map (List.cons c)

/-- Unescaping of a quoted character sequence: an opening quote, an escaped
body, and a closing quote. -/
def unescapeQuotedChars : List Char → Option (List Char)
  | [] => none
  | q :: rest =>
    if q = '"' then
      if rest.getLast? = some '"' then unescapeChars rest.dropLast
      else none
    else none

/-- Unescaping of a single-line quoted string, inverse to `escapeDebug`. -/
def unescapeQuoted (s : String) : Option String :=
  (unescapeQuotedChars s.data).map (fun cs => (⟨cs⟩ : String))

theorem unescape_escapeDebugChar (c : Char) (rest : List Char) :
    unescapeChars (escapeDebugChar c ++ rest) =
      (unescapeChars rest).map (List.cons c) := by
  by_cases h1 : c = '"'
  · subst h1
    rfl
  by_cases h2 : c = '\\'
  · subst h2
    rfl
  by_cases h3 : c = '\n'
  · subst h3
    rfl
  by_cases h4 : c = '\r'
  · subst h4
    rfl
  by_cases h5 : c = '\t'
  · subst h5
    rfl
  by_cases h6 : c.toNat < 32 ∨ c.toNat = 127
  · have hc : c = Char.ofNat c.toNat := (Char.ofNat_toNat c).symm
    rcases h6 with h | h
    · rw [hc]
      generalize hn : c.toNat = n at h
      interval_cases n <;> rfl
    · rw [h] at hc
      rw [hc]
      rfl
  · simp only [escapeDebugChar, if_neg h1, if_neg h2, if_neg h3, if_neg h4,
      if_neg h5, if_neg h6]
    simp only [List.singleton_append]
    rw [unescapeChars]
    all_goals simp_all

theorem unescape_escapeBody (l rest : List Char) :
    unescapeChars (escapeBody l ++ rest) =
      (unescapeChars rest).map (fun x => l ++ x) := by
  induction l with
  | nil =>
      simp [escapeBody, Option.map_id']
  | cons c l ih =>
      simp only [escapeBody, List.append_assoc, unescape_escapeDebugChar, ih,
        Option.map_map]
      rfl

theorem escapeDebugChar_ne_newline (c : Char) :
    ∀ x ∈ escapeDebugChar c, x ≠ '\n' := by
  by_cases h1 : c = '"'
  · subst h1
    decide
  by_cases h2 : c = '\\'
  · subst h2
    decide
  by_cases h3 : c = '\n'
  · subst h3
    decide
  by_cases h4 : c = '\r'
  · subst h4
    decide
  by_cases h5 : c = '\t'
  · subst h5
    decide
  by_cases h6 : c.toNat < 32 ∨ c.toNat = 127
  · have hc : c = Char.ofNat c.toNat := (Char.ofNat_toNat c).symm
    rcases h6 with h | h
    · rw [hc]
      generalize hn : c.toNat = n at h
      interval_cases n <;> decide
    · rw [h] at hc
      rw [hc]
      decide
  · intro x hx
    simp only [escapeDebugChar, if_neg h1, if_neg h2, if_neg h3, if_neg h4,
      if_neg h5, if_neg h6, List.mem_singleton] at hx
    subst hx
    exact h3

theorem escapeBody_ne_newline (l : List Char) :
    ∀ x ∈ escapeBody l, x ≠ '\n' := by
  induction l with
  | nil =>
      intro x hx
      simp [escapeBody] at hx
  | cons c l ih =>
      intro x hx
      rw [escapeBody] at hx
      rcases List.mem_append.mp hx with h | h
      · exact escapeDebugChar_ne_newline c x h
      · exact ih x h

/-- C7: escaping used for `assert_stdout` / `assert_stderr` is invertible
(unescaping the quoted string recovers exactly the captured text) and yields
a single-line result (no embedded newline survives unescaped); the two
sections are exactly the escaped text between the section markers. -/
theorem c7_escape_roundtrip (s : String) :
    unescapeQuoted (escapeDebug s) = some s
    ∧ (∀ x ∈ (escapeDebug s).data, x ≠ '\n')
    ∧ assertStdoutLine s = "\n  (assert_stdout " ++ escapeDebug s ++ ")"
    ∧ assertStderrLine s = "\n  (assert_stderr " ++ escapeDebug s ++ ")" := by
  refine ⟨?_, ?_, rfl, rfl⟩
  · have hbody : unescapeChars (escapeBody s.data) = some s.data := by
      have h := unescape_escapeBody s.data []
      rw [List.append_nil] at h
      rw [show unescapeChars [] = some [] from rfl] at h
      simpa using h
    have hdata : (escapeDebug s).data = '"' :: (escapeBody s.data ++ ['"']) := rfl
    have h0 : unescapeQuotedChars ('"' :: (escapeBody s.data ++ ['"'])) =
        unescapeChars (escapeBody s.data) := by
      simp [unescapeQuotedChars, List.getLast?_concat, List.dropLast_concat]
    simp only [unescapeQuoted, hdata, h0, hbody, Option.map_some']
  · intro x hx
    have hdata : (escapeDebug s).data = '"' :: (escapeBody s.data ++ ['"']) := rfl
    rw [hdata] at hx
    rcases List.mem_cons.mp hx with h | h
    · subst h
      decide
    · rcases List.mem_append.mp h with h | h
      · exact escapeBody_ne_newline s.data x h
      · rw [List.mem_singleton] at h
        subst h
        decide

/-- Substring containment on character lists: `v` occurs contiguously in
`out`. -/
def containsSub (v out : List Char) : Prop :=
  ∃ l r : List Char, out = l ++ v ++ r

theorem containsSub_trans {a b c : List Char} (h1 : containsSub a b)
    (h2 : containsSub b c) : containsSub a c := by
  obtain ⟨l1, r1, rfl⟩ := h1
  obtain ⟨l2, r2, rfl⟩ := h2
  exact ⟨l2 ++ l1, r1 ++ r2, by simp [List.append_assoc]⟩

theorem containsSub_quoted (v : String) :
    containsSub v.data (("\"" ++ v ++ "\"")).data :=
  ⟨['"'], ['"'], rfl⟩

theorem containsSub_wrap (pre j post : String) :
    containsSub j.data ((pre ++ j ++ post)).data :=
  ⟨pre.data, post.data, rfl⟩

theorem joinSpace_contains {xs : List String} {v : String} (h : v ∈ xs) :
    containsSub v.data (joinSpace xs).data := by
  induction xs with
  | nil =>
      simp at h
  | cons x xs ih =>
      rcases List.mem_cons.mp h with rfl | hv
      · cases xs with
        | nil => exact ⟨[], [], by simp [joinSpace]⟩
        | cons y ys =>
            refine ⟨[], (" " ++ joinSpace (y :: ys)).data, ?_⟩
            rw [joinSpace]
            simp [String.data_append, List.append_assoc]
      · cases xs with
        | nil => simp at hv
        | cons y ys =>
            obtain ⟨l, r, hr⟩ := ih hv
            refine ⟨(x ++ " ").data ++ l, r, ?_⟩
            rw [joinSpace]
            simp [String.data_append, hr, List.append_assoc]

/-- C9: every option value is interpolated verbatim (unescaped) between
double quotes in its section: the raw characters of each program argument,
preopened directory, tempdir alias, `name=value` environment pair and
`alias:path` mapdir pair occur as-is in the rendered section; consequently a
value containing a quote, backslash or newline breaks the single-line
quoted-string format, as the concrete serialization of an argument holding a
newline shows (the raw newline lands inside the quotes, unlike the escaped
stdout of C7). -/
theorem c9_verbatim_interpolation :
    (∀ (xs : List String) (v : String), v ∈ xs →
        containsSub v.data (argsLine xs).data)
    ∧ (∀ (xs : List String) (v : String), v ∈ xs →
        containsSub v.data (preopensLine xs).data)
    ∧ (∀ (xs : List String) (v : String), v ∈ xs →
        containsSub v.data (tempDirsLine xs).data)
    ∧ (∀ (xs : List (String × String)) (name val : String), (name, val) ∈ xs →
        containsSub ((name ++ "=" ++ val)).data (envsLine xs).data)
    ∧ (∀ (xs : List (String × String)) (al rd : String), (al, rd) ∈ xs →
        containsSub ((al ++ ":" ++ rd)).data (mapDirsLine xs).data)
    ∧ (WasiTest.mk ("x.wasm") ("") ("") 0
          { WasiOptions.default with args := [("a\nb")] }).into_wasi_wast =
        "(wasi_test \"x.wasm\"\n  (args \"a\nb\")\n  (assert_return (i64.const 0))\n)" := by
  refine ⟨?_, ?_, ?_, ?_, ?_, ?_⟩
  · intro xs v hv
    refine containsSub_trans (containsSub_trans (containsSub_quoted v) ?_)
      (containsSub_wrap ("\n  (args ") _ (")"))
    exact joinSpace_contains (List.mem_map_of_mem _ hv)
  · intro xs v hv
    refine containsSub_trans (containsSub_trans (containsSub_quoted v) ?_)
      (containsSub_wrap ("\n  (preopens ") _ (")"))
    exact joinSpace_contains (List.mem_map_of_mem _ hv)
  · intro xs v hv
    refine containsSub_trans (containsSub_trans (containsSub_quoted v) ?_)
      (containsSub_wrap ("\n  (temp_dirs ") _ (")"))
    exact joinSpace_contains (List.mem_map_of_mem _ hv)
  · intro xs name val hv
    have hq : containsSub ((name ++ "=" ++ val)).data
        (("\"" ++ name ++ "=" ++ val ++ "\"")).data := by
      refine ⟨['"'], ['"'], ?_⟩
      simp [String.data_append, List.append_assoc]
    refine containsSub_trans (containsSub_trans hq ?_)
      (containsSub_wrap ("\n  (envs ") _ (")"))
    exact joinSpace_contains (List.mem_map_of_mem _ hv)
  · intro xs al rd hv
    have hq : containsSub ((al ++ ":" ++ rd)).data
        (("\"" ++ al ++ ":" ++ rd ++ "\"")).data := by
      refine ⟨['"'], ['"'], ?_⟩
      simp [String.data_append, List.append_assoc]
    refine containsSub_trans (containsSub_trans hq ?_)
      (containsSub_wrap ("\n  (map_dirs ") _ (")"))
    exact joinSpace_contains (List.mem_map_of_mem _ hv)
  · rfl

/-- Witness for C9: a program argument containing a newline and a mapdir pair
occur verbatim in their rendered sections. -/
theorem c9_verbatim_interpolation_witness :
    containsSub (("a\nb" : String)).data (argsLine [("a\nb")]).data
    ∧ containsSub (("out" ++ ":" ++ "/tmp/out" : String)).data
        (mapDirsLine [(("out" : String), ("/tmp/out" : String))]).data := by
  constructor
  · exact c9_verbatim_interpolation.1 [("a\nb")] ("a\nb")
      (List.mem_singleton.mpr rfl)
  · exact c9_verbatim_interpolation.2.2.2.2.1 [(("out" : String), ("/tmp/out" : String))]
      ("out") ("/tmp/out") (List.mem_singleton.mpr rfl)
